import Mathlib

/-!
# Verification of the CPC vote-change / demographics correlation pipeline

Shallow embedding of the analysis scripts of this repository:

* `extract_votes.py` — pulls election results, retains one record per
  (constituency, year) preferring the highest `rep_order`, extracts the CPC
  percentage from the `party_results` array and derives the change columns;
* `all.py` — the full-sweep pipeline: loads the vote spreadsheet, builds the
  wide demographics table, inner-joins on `constituency_id`, computes Pearson
  correlations for every `demo_` column (threshold 30, zero-variance skip) and
  renders the report sheets;
* `analysis.py` / `scripts/analysis.py` — the focused pipelines (threshold 10,
  zero-filled missing rates, no variance check).

Database queries, spreadsheet and chart rendering are external collaborators;
the records they produce are modelled as plain lists.  The float outputs of
scipy are rationals, so the statistics oracles are parameters returning `Rat`; the
mathematics of `pearsonr` itself is idealized over the reals further below.
-/

/-! ## Vote extractor (`extract_votes.py`) -/

/-- One element of the `party_results` JSONB array. -/
structure PartyResult where
  partyCode : String
  votes : Int
  percentage : Rat
deriving DecidableEq

/-- One row of the election-results query (`extract_votes.py` lines 66-95).
`party_results` is `none` when the JSONB field is null or empty, both falsy
in Python. -/
structure ResultRow where
  constituency_id : Int
  riding_name : String
  election_year : Int
  total_votes : Int
  party_results : Option (List PartyResult)
  rep_order : Int
deriving DecidableEq

/-- CPC percentage extracted from a `party_results` array
(`extract_votes.py` lines 132-143): 0 when the array is falsy or the CPC
entry is absent, otherwise the stored 0-1 share times 100. -/
def extractCpcPct : Option (List PartyResult) → Rat
  | none => 0
  | some prs =>
    match prs.find? (fun p => p.partyCode == "CPC") with
    | none => 0
    | some p => p.percentage * 100

/-- CPC vote count extracted from a `party_results` array
(`extract_votes.py` lines 133-140). -/
def cpcVotesOf : Option (List PartyResult) → Int
  | none => 0
  | some prs =>
    match prs.find? (fun p => p.partyCode == "CPC") with
    | none => 0
    | some p => p.votes

/-- Round a rational to `k` decimal places, the Python builtin round.  Ties are
modelled half-up; Python rounds float ties to even, which is immaterial to
every property proved here (no claim sits on an exact tie). -/
def roundTo (k : Nat) (q : Rat) : Rat :=
  ((Int.floor (q * 10 ^ k + 1 / 2) : Rat)) / 10 ^ k

/-- The per-election entry stored in the elections dict of a constituency
(`extract_votes.py` lines 145-150). -/
structure StoredEntry where
  total_votes : Int
  cpc_votes : Int
  cpc_percentage : Rat
  rep_order : Int
deriving DecidableEq

/-- The stored entry built from one query row (`extract_votes.py` 145-150). -/
def mkEntry (r : ResultRow) : StoredEntry :=
  { total_votes := r.total_votes
    cpc_votes := cpcVotesOf r.party_results
    cpc_percentage := roundTo 2 (extractCpcPct r.party_results)
    rep_order := r.rep_order }

/-- The retention fold of `extract_votes.py` lines 125-150 restricted to one
dictionary slot: an incoming row replaces the current record only when its
`rep_order` is strictly larger; the greater-or-equal comparison against the
stored rep_order skips the row, so ties keep the stored record. -/
def selectStep (acc : Option ResultRow) (row : ResultRow) : Option ResultRow :=
  match acc with
  | none => some row
  | some ex => if row.rep_order ≤ ex.rep_order then some ex else some row

/-- The retention fold applied to all rows of one slot, in query order. -/
def selectRec (rows : List ResultRow) : Option ResultRow :=
  rows.foldl selectStep none

/-- The entry stored for `(cid, yr)` after processing all query rows.  The
Python dict slot is written exactly at the rows matching the key, in query
order, so it equals the fold over that subsequence. -/
def electionsCell (rows : List ResultRow) (cid yr : Int) : Option StoredEntry :=
  (selectRec (rows.filter
      (fun r => r.constituency_id == cid && r.election_year == yr))).map mkEntry

/-- Stored cpc_percentage of the optional year entry, defaulting to 0 when
the year is absent (`extract_votes.py` lines 211-219). -/
def pctY (e : Option StoredEntry) : Rat := (e.map (fun s => s.cpc_percentage)).getD 0

/-- Change derivation of `extract_votes.py` line 221: the derived 2021-to-2025 change is written
only when both percentages are truthy; a Python float is falsy exactly when
it equals 0. -/
def changeCell (e21 e25 : Option StoredEntry) : Option Rat :=
  if pctY e21 ≠ 0 ∧ pctY e25 ≠ 0 then some (roundTo 2 (pctY e25 - pctY e21)) else none

/-- Every party percentage of the optional retained record is nonnegative. -/
def nonnegShares (r : Option ResultRow) : Bool :=
  r.all (fun rr => (rr.party_results.getD []).all (fun p => decide (0 ≤ p.percentage)))

/-! ## Loader and joiner (`all.py`, `analysis.py`) -/

/-- One row of the CPC-votes spreadsheet after the renaming of
`all.py` lines 20-32. -/
structure VoteRow where
  constituency_id : Int
  riding_name : String
  province : String
  cpc_change_21_25 : Option Rat
  cpc_change_19_25 : Option Rat
deriving DecidableEq

/-- Loader filter of `all.py` line 34 (same in both focused scripts): keep only rows whose
target change is non-null. -/
def load_cpc_votes (l : List VoteRow) : List VoteRow :=
  l.filter (fun r => r.cpc_change_21_25.isSome)

/-- The `rateTotal` slot of a demographics record: the `values` JSONB may be
null or empty (falsy), may lack the key, or may hold a null or a numeric
rate. -/
inductive RateField
  | noValues
  | noKey
  | nullRate
  | rate (q : Rat)
deriving DecidableEq

/-- One row of the demographics query (`all.py` lines 79-93). -/
structure DemoRow where
  constituency_id : Int
  char_id : String
  values : RateField
deriving DecidableEq

/-- Rate extraction of `all.py` line 106: values.get with default None when the JSONB is truthy, None otherwise. -/
def rateAll : RateField → Option Rat
  | .rate q => some q
  | _ => none

/-- Rate extraction of `analysis.py` line 74 and `scripts/analysis.py` line 126:
`values.get("rateTotal", 0) if values else 0`; a present-but-null `rateTotal`
is returned as None by `.get`, every other missing shape becomes 0. -/
def rateFocused : RateField → Option Rat
  | .noValues => some 0
  | .noKey => some 0
  | .nullRate => none
  | .rate q => some q

/-- Cell of the wide per-district dict built by `all.py` lines 100-110.
Outer `none` means the `demo_` key was never set for this district; `all.py`
sets the key only when the extracted rate is not None. -/
def cellAllStep (cid : Int) (ch : String) (acc : Option (Option Rat)) (row : DemoRow) :
    Option (Option Rat) :=
  if row.constituency_id = cid ∧ row.char_id = ch then
    match rateAll row.values with
    | none => acc
    | some q => some (some q)
  else acc

/-- The `(cid, ch)` slot after `all.py` lines 100-110 processed every row. -/
def cellAll (rows : List DemoRow) (cid : Int) (ch : String) : Option (Option Rat) :=
  rows.foldl (cellAllStep cid ch) none

/-- Cell of the wide dict of `analysis.py` lines 68-75: the key is set for
every fetched row, with the zero-defaulted rate. -/
def cellFocusedStep (cid : Int) (ch : String) (acc : Option (Option Rat)) (row : DemoRow) :
    Option (Option Rat) :=
  if row.constituency_id = cid ∧ row.char_id = ch then some (rateFocused row.values)
  else acc

/-- The `(cid, ch)` slot after `analysis.py` lines 68-75 processed every row. -/
def cellFocused (rows : List DemoRow) (cid : Int) (ch : String) : Option (Option Rat) :=
  rows.foldl (cellFocusedStep cid ch) none

/-- Wide demographics row, one per district, as fed to `pd.merge`. -/
structure DemoWideRow where
  constituency_id : Int
  cells : List (String × Option Rat)
deriving DecidableEq

/-- Model of the inner pd.merge on constituency_id
(`all.py` line 425, `analysis.py` line 205) for key-unique inputs: each vote
row is matched with the demographics row of the same district, in vote-table
order; unmatched rows on either side are dropped. -/
def merge (votes : List VoteRow) (demos : List DemoWideRow) :
    List (VoteRow × DemoWideRow) :=
  votes.filterMap (fun v =>
    (demos.find? (fun d => d.constituency_id == v.constituency_id)).map
      (fun d => (v, d)))

/-! ## Correlation engine -/

/-- Column view of `merged_df` as consumed by the engines: the target column
and one cell column per `demo_` attribute, all of the common row length. -/
structure MergedTable where
  target : List (Option Rat)
  attrs : List (String × List (Option Rat))

/-- Valid-pair selection, the dropna of `all.py` line 126,
returning (attribute value, target value) pairs in row order. -/
def validPairs (col : List (Option Rat × Option Rat)) : List (Rat × Rat) :=
  col.filterMap (fun p =>
    match p with
    | (some t, some a) => some (a, t)
    | _ => none)

/-- Mean of a list of rationals (0 for the empty list). -/
def qmean (xs : List Rat) : Rat := xs.sum / xs.length

/-- Numerator of the sample variance.  pandas `.std()` (ddof 1) is zero
exactly when this sum is, given that the n < 30 check has already passed. -/
def qSumSqDev (xs : List Rat) : Rat := (xs.map (fun x => (x - qmean xs) ^ 2)).sum

/-- Strength classification of `all.py` lines 138-147, applied to `abs(r)`. -/
def strengthLabel (absr : Rat) : String :=
  if 1 / 2 ≤ absr then "Strong"
  else if 3 / 10 ≤ absr then "Moderate"
  else if 1 / 5 ≤ absr then "Weak"
  else "Very Weak"

/-- Direction classification of `all.py` line 160. -/
def directionLabel (r : Rat) : String := if 0 < r then "Positive" else "Negative"

/-- The three hierarchical labels plus description of a demographic category
(`all.py` lines 63-74). -/
structure AttrInfo where
  category : String
  subcategory : String
  subsubcategory : String
  description : String
deriving DecidableEq

/-- One result dict appended by `calculate_all_correlations`
(`all.py` lines 149-161). -/
structure CorrelationResult where
  char_id : String
  category : String
  subcategory : String
  subsubcategory : String
  pearson_r : Rat
  p_value : Rat
  significant : String
  strength : String
  r_squared : Rat
  n : Nat
  direction : String
deriving DecidableEq

/-- Body of the per-column loop of `calculate_all_correlations`
(`all.py` lines 123-161).  `sp` models `scipy.stats.pearsonr`, whose float
outputs (r, p) are rational numbers. -/
def processColumnAll (sp : List (Rat × Rat) → Rat × Rat) (info : String → AttrInfo)
    (ch : String) (col : List (Option Rat × Option Rat)) : Option CorrelationResult :=
  if (validPairs col).length < 30 then none
  else if qSumSqDev ((validPairs col).map Prod.fst) = 0 then none
  else
    some { char_id := ch
           category := (info ch).category
           subcategory := (info ch).subcategory
           subsubcategory := (info ch).subsubcategory
           pearson_r := roundTo 4 (sp (validPairs col)).1
           p_value := (sp (validPairs col)).2
           significant := if (sp (validPairs col)).2 < 1 / 20 then "Yes" else "No"
           strength := strengthLabel |(sp (validPairs col)).1|
           r_squared := roundTo 4 ((sp (validPairs col)).1 ^ 2)
           n := (validPairs col).length
           direction := directionLabel (sp (validPairs col)).1 }

/-- Primary ranking order: descending absolute stored coefficient. -/
def byAbsRDesc (a b : CorrelationResult) : Prop := |b.pearson_r| ≤ |a.pearson_r|

/-- Descending stored coefficient. -/
def byRDesc (a b : CorrelationResult) : Prop := b.pearson_r ≤ a.pearson_r

/-- Ascending stored coefficient. -/
def byRAsc (a b : CorrelationResult) : Prop := a.pearson_r ≤ b.pearson_r

instance : DecidableRel byAbsRDesc := fun a b =>
  inferInstanceAs (Decidable (|b.pearson_r| ≤ |a.pearson_r|))

instance : DecidableRel byRDesc := fun a b =>
  inferInstanceAs (Decidable (b.pearson_r ≤ a.pearson_r))

instance : DecidableRel byRAsc := fun a b =>
  inferInstanceAs (Decidable (a.pearson_r ≤ b.pearson_r))

instance : IsTotal CorrelationResult byAbsRDesc := ⟨fun _ _ => le_total _ _⟩

instance : IsTrans CorrelationResult byAbsRDesc :=
  ⟨fun _ _ _ h1 h2 => le_trans h2 h1⟩

instance : IsTotal CorrelationResult byRDesc := ⟨fun _ _ => le_total _ _⟩

instance : IsTrans CorrelationResult byRDesc := ⟨fun _ _ _ h1 h2 => le_trans h2 h1⟩

instance : IsTotal CorrelationResult byRAsc := ⟨fun _ _ => le_total _ _⟩

instance : IsTrans CorrelationResult byRAsc := ⟨fun _ _ _ h1 h2 => le_trans h1 h2⟩

/-- Full-sweep engine `calculate_all_correlations` (`all.py` lines 116-166): one optional result
per `demo_` column, then `df.sort_values("Pearson r", key=abs,
ascending=False)`.  The unstable pandas quicksort is modelled by a deterministic
comparison sort; no claim depends on the order of `abs(r)` ties. -/
def calculate_all_correlations (sp : List (Rat × Rat) → Rat × Rat)
    (info : String → AttrInfo) (t : MergedTable) : List CorrelationResult :=
  List.insertionSort byAbsRDesc
    (t.attrs.filterMap (fun a => processColumnAll sp info a.1 (t.target.zip a.2)))

/-- Sheet 1 of `create_excel_report` (`all.py` lines 252-253). -/
def sigSheet (results : List CorrelationResult) : List CorrelationResult :=
  List.insertionSort byAbsRDesc (results.filter (fun r => r.significant == "Yes"))

/-- Sheet 2 of `create_excel_report` (`all.py` lines 258-259). -/
def posSheet (results : List CorrelationResult) : List CorrelationResult :=
  List.insertionSort byRDesc
    (results.filter (fun r => r.significant == "Yes" && r.direction == "Positive"))

/-- Sheet 3 of `create_excel_report` (`all.py` lines 264-265). -/
def negSheet (results : List CorrelationResult) : List CorrelationResult :=
  List.insertionSort byRAsc
    (results.filter (fun r => r.significant == "Yes" && r.direction == "Negative"))

/-- One result dict appended by the focused `calculate_correlations`
(`analysis.py` lines 106-115). -/
structure FocusedResult where
  characteristics_id : String
  category : String
  n : Nat
  pearson_r : Rat
  pearson_p : Rat
  spearman_rho : Rat
  spearman_p : Rat
  significant : Bool
deriving DecidableEq

/-- Body of the per-category loop of the focused `calculate_correlations`
(`analysis.py` lines 86-115, same shape in `scripts/analysis.py` 138-183):
threshold 10 and, unlike the full sweep, no zero-variance check.  `sp` and
`spr` model the pearsonr and spearmanr float outputs of scipy. -/
def processColumnFocused (sp spr : List (Rat × Rat) → Rat × Rat)
    (ch label : String) (col : List (Option Rat × Option Rat)) : Option FocusedResult :=
  if (validPairs col).length < 10 then none
  else
    some { characteristics_id := ch
           category := label
           n := (validPairs col).length
           pearson_r := roundTo 4 (sp (validPairs col)).1
           pearson_p := roundTo 6 (sp (validPairs col)).2
           spearman_rho := roundTo 4 (spr (validPairs col)).1
           spearman_p := roundTo 6 (spr (validPairs col)).2
           significant := decide ((sp (validPairs col)).2 < 1 / 20) }

/-- The focused `calculate_correlations` (`analysis.py` lines 82-132): loop
over the configured categories, silently skipping columns absent from the
merged table. -/
def calculate_correlations (sp spr : List (Rat × Rat) → Rat × Rat)
    (cats : List (String × String)) (t : MergedTable) : List FocusedResult :=
  cats.filterMap (fun c =>
    (t.attrs.find? (fun a => a.1 == c.1)).bind
      (fun a => processColumnFocused sp spr c.1 c.2 (t.target.zip a.2)))

/-! ## Pearson mathematics, idealized over the reals -/

noncomputable section

/-- Real casts of the valid rational pairs. -/
def toRealPairs (v : List (Rat × Rat)) : List (ℝ × ℝ) :=
  v.map (fun p => ((p.1 : ℝ), (p.2 : ℝ)))

/-- Sum of the first components. -/
def sumFst (v : List (ℝ × ℝ)) : ℝ := (v.map Prod.fst).sum

/-- Sum of the second components. -/
def sumSnd (v : List (ℝ × ℝ)) : ℝ := (v.map Prod.snd).sum

/-- Sum of products. -/
def sumProd (v : List (ℝ × ℝ)) : ℝ := (v.map (fun p => p.1 * p.2)).sum

/-- Sum of squared first components. -/
def sumFstSq (v : List (ℝ × ℝ)) : ℝ := (v.map (fun p => p.1 ^ 2)).sum

/-- Sum of squared second components. -/
def sumSndSq (v : List (ℝ × ℝ)) : ℝ := (v.map (fun p => p.2 ^ 2)).sum

/-- Mean of the first components. -/
def meanFst (v : List (ℝ × ℝ)) : ℝ := sumFst v / v.length

/-- Mean of the second components. -/
def meanSnd (v : List (ℝ × ℝ)) : ℝ := sumSnd v / v.length

/-- Centred sum of squares of the first components. -/
def ssXX (v : List (ℝ × ℝ)) : ℝ := (v.map (fun p => (p.1 - meanFst v) ^ 2)).sum

/-- Centred sum of squares of the second components. -/
def ssYY (v : List (ℝ × ℝ)) : ℝ := (v.map (fun p => (p.2 - meanSnd v) ^ 2)).sum

/-- Centred sum of products. -/
def ssXY (v : List (ℝ × ℝ)) : ℝ :=
  (v.map (fun p => (p.1 - meanFst v) * (p.2 - meanSnd v))).sum

/-- Pearson r as computed by `scipy.stats.pearsonr` (`all.py` line 134,
`analysis.py` line 101), idealized over the reals: the centred dot product
over the product of the centred norms. -/
def pearsonR (v : List (ℝ × ℝ)) : ℝ :=
  ssXY v / (Real.sqrt (ssXX v) * Real.sqrt (ssYY v))

/-- Modelled from the spec: the textbook product-moment form of "the standard
formula" for the Pearson coefficient, to be compared with `pearsonR`. -/
def pearsonSpecForm (v : List (ℝ × ℝ)) : ℝ :=
  (v.length * sumProd v - sumFst v * sumSnd v) /
    (Real.sqrt (v.length * sumFstSq v - sumFst v ^ 2) *
      Real.sqrt (v.length * sumSndSq v - sumSnd v ^ 2))

end

/-! ## Helper lemmas -/

lemma cellAll_fold_acc (rows : List DemoRow) (cid : Int) (ch : String)
    (acc : Option (Option Rat))
    (h : ∀ row ∈ rows, row.constituency_id = cid → row.char_id = ch →
      rateAll row.values = none) :
    rows.foldl (cellAllStep cid ch) acc = acc := by
  induction rows generalizing acc with
  | nil => rfl
  | cons a t ih =>
    have ha := h a (by simp)
    have hstep : cellAllStep cid ch acc a = acc := by
      unfold cellAllStep
      split_ifs with hc
      · rw [ha hc.1 hc.2]
      · rfl
    simpa [List.foldl_cons, hstep] using ih _ (fun row hr => h row (by simp [hr]))

lemma cellFocused_fold_acc (rows : List DemoRow) (cid : Int) (ch : String)
    (acc : Option (Option Rat))
    (h : ∀ row ∈ rows, ¬(row.constituency_id = cid ∧ row.char_id = ch)) :
    rows.foldl (cellFocusedStep cid ch) acc = acc := by
  induction rows generalizing acc with
  | nil => rfl
  | cons a t ih =>
    have hstep : cellFocusedStep cid ch acc a = acc := by
      unfold cellFocusedStep
      rw [if_neg (h a (by simp))]
    simpa [List.foldl_cons, hstep] using ih _ (fun row hr => h row (by simp [hr]))

lemma cellAll_fold_ne_none (rows : List DemoRow) (cid : Int) (ch : String)
    (acc : Option (Option Rat)) (hacc : acc ≠ none) :
    rows.foldl (cellAllStep cid ch) acc ≠ none := by
  induction rows generalizing acc with
  | nil => exact hacc
  | cons a t ih =>
    refine ih _ ?_
    unfold cellAllStep
    split_ifs
    · cases rateAll a.values <;> simp [hacc]
    · exact hacc

lemma cellAll_set_of_mem {rows : List DemoRow} {row : DemoRow}
    (hmem : row ∈ rows) (hrate : rateAll row.values ≠ none) :
    cellAll rows row.constituency_id row.char_id ≠ none := by
  unfold cellAll
  induction rows with
  | nil => cases hmem
  | cons a t ih =>
    rcases List.mem_cons.mp hmem with rfl | hmt
    · rw [List.foldl_cons]
      apply cellAll_fold_ne_none
      unfold cellAllStep
      rw [if_pos ⟨rfl, rfl⟩]
      cases hq : rateAll row.values
      · exact absurd hq hrate
      · simp
    · rw [List.foldl_cons]
      by_cases hstep : cellAllStep row.constituency_id row.char_id none a = none
      · rw [hstep]; exact ih hmt
      · exact cellAll_fold_ne_none _ _ _ _ hstep

lemma selectRec_fold_some (rows : List ResultRow) (x : ResultRow) :
    rows.foldl selectStep (some x) ≠ none := by
  induction rows generalizing x with
  | nil => simp
  | cons a t ih =>
    rw [List.foldl_cons]
    simp only [selectStep]
    split_ifs <;> exact ih _

lemma selectRec_eq_none (rows : List ResultRow) (h : selectRec rows = none) :
    rows = [] := by
  cases rows with
  | nil => rfl
  | cons a t =>
    exact absurd h (by simpa [selectRec, List.foldl_cons, selectStep] using
      selectRec_fold_some t a)

lemma selectRec_spec (rows : List ResultRow) (r : ResultRow)
    (h : selectRec rows = some r) :
    ∃ l1 l2, rows = l1 ++ r :: l2
      ∧ (∀ x ∈ l1, x.rep_order < r.rep_order)
      ∧ (∀ x ∈ rows, x.rep_order ≤ r.rep_order) := by
  induction rows using List.reverseRecOn generalizing r with
  | nil => simp [selectRec] at h
  | append_singleton l a ih =>
    have hfold : selectRec (l ++ [a]) = selectStep (selectRec l) a := by
      simp [selectRec, List.foldl_append]
    rw [hfold] at h
    cases hl : selectRec l with
    | none =>
      have : l = [] := selectRec_eq_none l hl
      subst this
      rw [hl] at h
      simp only [selectStep] at h
      cases h
      exact ⟨[], [], rfl, by simp, by simp⟩
    | some ex =>
      rw [hl] at h
      simp only [selectStep] at h
      obtain ⟨l1, l2, hsplit, hlt, hle⟩ := ih ex hl
      split_ifs at h with hcmp
      · cases h
        refine ⟨l1, l2 ++ [a], by simp [hsplit], hlt, ?_⟩
        intro x hx
        rcases List.mem_append.mp hx with hx | hx
        · exact hle x hx
        · simp at hx; subst hx; exact hcmp
      · cases h
        push_neg at hcmp
        refine ⟨l, [], rfl, ?_, ?_⟩
        · intro x hx
          exact lt_of_le_of_lt (hle x hx) hcmp
        · intro x hx
          rcases List.mem_append.mp hx with hx | hx
          · exact le_of_lt (lt_of_le_of_lt (hle x hx) hcmp)
          · simp at hx; subst hx; exact le_refl _

lemma merge_countP_zero (votes : List VoteRow) (demos : List DemoWideRow) (c : Int)
    (hc : c ∉ votes.map (fun v => v.constituency_id)) :
    (merge votes demos).countP (fun j => j.1.constituency_id == c) = 0 := by
  induction votes with
  | nil => rfl
  | cons v vs ih =>
    simp only [List.map_cons, List.mem_cons, not_or] at hc
    unfold merge at ih ⊢
    rw [List.filterMap_cons]
    cases hf : demos.find? (fun d => d.constituency_id == v.constituency_id) with
    | none => exact ih hc.2
    | some d =>
      simp only [Option.map_some']
      rw [List.countP_cons]
      rw [ih hc.2]
      have hvc : ¬v.constituency_id = c := fun h => hc.1 h.symm
      simp [hvc]

/-! ## Claim theorems -/

/-- C2 (amended): in the full-sweep loader a district/attribute pair none of
whose source rows carries an extractable rate stays absent (never zero); in
the focused loaders a pair with no source row at all stays absent; and in the
full sweep an attribute key exists for a district as soon as one of its rows
carries a rate, so the column exists whenever at least one district has an
observation. -/
theorem spec_c2_nulls (rows : List DemoRow) (cid : Int) (ch : String) :
    ((∀ row ∈ rows, row.constituency_id = cid → row.char_id = ch →
        rateAll row.values = none) → cellAll rows cid ch = none)
    ∧ ((∀ row ∈ rows, ¬(row.constituency_id = cid ∧ row.char_id = ch)) →
        cellFocused rows cid ch = none)
    ∧ (∀ row ∈ rows, row.char_id = ch → rateAll row.values ≠ none →
        ∃ c, cellAll rows c ch ≠ none) := by
  refine ⟨?_, ?_, ?_⟩
  · intro h
    exact cellAll_fold_acc rows cid ch none h
  · intro h
    exact cellFocused_fold_acc rows cid ch none h
  · intro row hmem hch hrate
    refine ⟨row.constituency_id, ?_⟩
    rw [← hch]
    exact cellAll_set_of_mem hmem hrate

/-- C2 witness: a concrete instantiation of each conjunct of `spec_c2_nulls`. -/
theorem spec_c2_witness :
    cellAll [⟨1, "2255", RateField.nullRate⟩] 1 "2255" = none
    ∧ cellFocused [⟨1, "2255", RateField.nullRate⟩] 9 "2255" = none
    ∧ ∃ c, cellAll [⟨2, "2256", RateField.rate 5⟩] c "2256" ≠ none :=
  ⟨(spec_c2_nulls [⟨1, "2255", RateField.nullRate⟩] 1 "2255").1 (by decide),
   (spec_c2_nulls [⟨1, "2255", RateField.nullRate⟩] 9 "2255").2.1 (by decide),
   (spec_c2_nulls [⟨2, "2256", RateField.rate 5⟩] 2 "2256").2.2
     ⟨2, "2256", RateField.rate 5⟩ (by simp) rfl (by decide)⟩

/-- C2 counterexample: in the focused loaders, a database record whose
`values` JSONB lacks the `rateTotal` key — a pair for which the source
supplied no rate observation — is stored as 0, not left null, while the
full-sweep loader leaves the same pair absent. -/
theorem spec_c2_cex :
    cellFocused [⟨1, "2255", RateField.noKey⟩] 1 "2255" = some (some 0)
    ∧ cellAll [⟨1, "2255", RateField.noKey⟩] 1 "2255" = none
    ∧ rateAll RateField.noKey = none := by
  refine ⟨by decide, by decide, rfl⟩

/-- C4: an attribute column yields a result only with at least 30 valid
paired observations in the full sweep and 10 in the focused variant; below
the threshold the column is skipped with no error (the engines are total
functions returning `none`). -/
theorem spec_c4_threshold (sp spr : List (Rat × Rat) → Rat × Rat)
    (info : String → AttrInfo) (ch label : String)
    (col : List (Option Rat × Option Rat)) :
    ((validPairs col).length < 30 → processColumnAll sp info ch col = none)
    ∧ (processColumnAll sp info ch col ≠ none → 30 ≤ (validPairs col).length)
    ∧ ((validPairs col).length < 10 →
        processColumnFocused sp spr ch label col = none)
    ∧ (processColumnFocused sp spr ch label col ≠ none →
        10 ≤ (validPairs col).length) := by
  refine ⟨?_, ?_, ?_, ?_⟩
  · intro h
    simp [processColumnAll, h]
  · intro h
    by_contra h30
    push_neg at h30
    exact h (by simp [processColumnAll, h30])
  · intro h
    simp [processColumnFocused, h]
  · intro h
    by_contra h10
    push_neg at h10
    exact h (by simp [processColumnFocused, h10])

/-- C4 witness: a column with 5 valid pairs is skipped by both engines. -/
theorem spec_c4_witness :
    processColumnAll (fun _ => (0, 0)) (fun _ => ⟨"", "", "", ""⟩) "2255"
        (List.replicate 5 (some 1, some 2)) = none
    ∧ processColumnFocused (fun _ => (0, 0)) (fun _ => (0, 0)) "2255" "lbl"
        (List.replicate 5 (some 1, some 2)) = none :=
  ⟨(spec_c4_threshold (fun _ => (0, 0)) (fun _ => (0, 0)) (fun _ => ⟨"", "", "", ""⟩)
      "2255" "lbl" (List.replicate 5 (some 1, some 2))).1 (by decide),
   (spec_c4_threshold (fun _ => (0, 0)) (fun _ => (0, 0)) (fun _ => ⟨"", "", "", ""⟩)
      "2255" "lbl" (List.replicate 5 (some 1, some 2))).2.2.1 (by decide)⟩

/-- C6: the join is a strict inner join on the district identifier: with
key-unique inputs, a district occurs in the joined table exactly once when it
is present in both tables and not at all otherwise. -/
theorem spec_c6_join (votes : List VoteRow) (demos : List DemoWideRow)
    (hv : (votes.map (fun v => v.constituency_id)).Nodup)
    (_hd : (demos.map (fun d => d.constituency_id)).Nodup) (c : Int) :
    (merge votes demos).countP (fun j => j.1.constituency_id == c) =
      if c ∈ votes.map (fun v => v.constituency_id)
          ∧ c ∈ demos.map (fun d => d.constituency_id) then 1 else 0 := by
  induction votes with
  | nil => simp [merge]
  | cons v vs ih =>
    rw [List.map_cons, List.nodup_cons] at hv
    unfold merge at ih ⊢
    rw [List.filterMap_cons]
    cases hf : demos.find? (fun d => d.constituency_id == v.constituency_id) with
    | none =>
      have hnd : c = v.constituency_id → c ∉ demos.map (fun d => d.constituency_id) := by
        intro hceq hcd
        obtain ⟨d, hdmem, hdc⟩ := List.mem_map.mp hcd
        have := List.find?_eq_none.mp hf d hdmem
        simp only [beq_iff_eq] at this
        exact this (hdc.trans hceq)
      simp only [Option.map_none']
      rw [ih hv.2]
      by_cases hcv : c = v.constituency_id
      · rw [if_neg (fun h => hnd hcv h.2), if_neg (fun h => hnd hcv h.2)]
      · simp [List.map_cons, List.mem_cons, hcv]
    | some d =>
      simp only [Option.map_some']
      rw [List.countP_cons]
      have hdmem : d ∈ demos := List.mem_of_find?_eq_some hf
      have hdc : d.constituency_id = v.constituency_id := by
        have := List.find?_some hf
        simpa using this
      by_cases hcv : c = v.constituency_id
      · have h1 : c ∉ List.map (fun vv => vv.constituency_id) vs := by
          rw [hcv]; exact hv.1
        have h0 := merge_countP_zero vs demos c h1
        unfold merge at h0
        rw [h0]
        have hcd : c ∈ demos.map (fun dd => dd.constituency_id) := by
          rw [hcv, ← hdc]
          exact List.mem_map_of_mem _ hdmem
        have hcv2 : c ∈ List.map (fun vv => vv.constituency_id) (v :: vs) := by
          rw [hcv]
          exact List.mem_map_of_mem _ (List.mem_cons_self v vs)
        have hcond : c ∈ List.map (fun v => v.constituency_id) (v :: vs)
            ∧ c ∈ List.map (fun d => d.constituency_id) demos := ⟨hcv2, hcd⟩
        rw [if_pos hcond]
        simp [hcv]
      · rw [ih hv.2]
        have hne : ((v, d).1.constituency_id == c) = false := by
          simp only [beq_eq_false_iff_ne, ne_eq]
          exact fun h => hcv h.symm
        simp [hne, List.mem_cons, hcv]

/-- C6 witness: district 2 is in both tables and appears exactly once. -/
theorem spec_c6_witness :
    (merge [⟨1, "a", "p", some 1, none⟩, ⟨2, "b", "p", some 2, none⟩]
        [⟨2, [("2255", some 3)]⟩, ⟨7, []⟩]).countP
      (fun j => j.1.constituency_id == 2) = 1 := by
  have h := spec_c6_join
    [⟨1, "a", "p", some 1, none⟩, ⟨2, "b", "p", some 2, none⟩]
    [⟨2, [("2255", some 3)]⟩, ⟨7, []⟩] (by decide) (by decide) 2
  rw [if_pos (by decide)] at h
  exact h

/-- C8: the full-sweep engine is deterministic: identical merged tables give
identical result lists — same attributes, coefficients, p-values, sample
sizes and classifications, in the same order. -/
theorem spec_c8_deterministic (sp : List (Rat × Rat) → Rat × Rat)
    (info : String → AttrInfo) (t1 t2 : MergedTable) (h : t1 = t2) :
    calculate_all_correlations sp info t1 = calculate_all_correlations sp info t2
    ∧ (calculate_all_correlations sp info t1).map (fun r => r.char_id)
        = (calculate_all_correlations sp info t2).map (fun r => r.char_id)
    ∧ (calculate_all_correlations sp info t1).map (fun r => r.pearson_r)
        = (calculate_all_correlations sp info t2).map (fun r => r.pearson_r)
    ∧ (calculate_all_correlations sp info t1).map (fun r => r.p_value)
        = (calculate_all_correlations sp info t2).map (fun r => r.p_value)
    ∧ (calculate_all_correlations sp info t1).map (fun r => r.n)
        = (calculate_all_correlations sp info t2).map (fun r => r.n)
    ∧ (calculate_all_correlations sp info t1).map (fun r => r.strength)
        = (calculate_all_correlations sp info t2).map (fun r => r.strength)
    ∧ (calculate_all_correlations sp info t1).map (fun r => r.direction)
        = (calculate_all_correlations sp info t2).map (fun r => r.direction) := by
  subst h
  exact ⟨rfl, rfl, rfl, rfl, rfl, rfl, rfl⟩

/-- C8 witness: the determinism theorem applied to a concrete table. -/
theorem spec_c8_witness :
    calculate_all_correlations (fun _ => (0, 0)) (fun _ => ⟨"", "", "", ""⟩)
        ⟨[some 1], [("2255", [some 2])]⟩
      = calculate_all_correlations (fun _ => (0, 0)) (fun _ => ⟨"", "", "", ""⟩)
        ⟨[some 1], [("2255", [some 2])]⟩ :=
  (spec_c8_deterministic (fun _ => (0, 0)) (fun _ => ⟨"", "", "", ""⟩)
    ⟨[some 1], [("2255", [some 2])]⟩ ⟨[some 1], [("2255", [some 2])]⟩ rfl).1

/-- C10: the record retained for a (constituency, year) slot is the first row
in query order whose `rep_order` attains the maximum over the rows of the
slot:
every earlier row has strictly smaller `rep_order` (a later equal one is
discarded) and no row has a larger one. -/
theorem spec_c10_retention (rows : List ResultRow) (cid yr : Int) (e : StoredEntry)
    (h : electionsCell rows cid yr = some e) :
    ∃ l1 rec0 l2,
      rows.filter (fun r => r.constituency_id == cid && r.election_year == yr)
          = l1 ++ rec0 :: l2
      ∧ e = mkEntry rec0
      ∧ (∀ x ∈ l1, x.rep_order < rec0.rep_order)
      ∧ (∀ x ∈ rows.filter (fun r => r.constituency_id == cid && r.election_year == yr),
          x.rep_order ≤ rec0.rep_order) := by
  unfold electionsCell at h
  rw [Option.map_eq_some'] at h
  obtain ⟨rec0, hsel, hmk⟩ := h
  obtain ⟨l1, l2, hsplit, hlt, hle⟩ := selectRec_spec _ rec0 hsel
  exact ⟨l1, rec0, l2, hsplit, hmk.symm, hlt, hle⟩

/-- C10 witness: among rep_orders 1, 2, 2 the first row carrying 2 wins. -/
theorem spec_c10_witness :
    ∃ l1 rec0 l2,
      ([⟨1, "a", 2021, 10, none, 1⟩, ⟨1, "b", 2021, 20, none, 2⟩,
          ⟨1, "c", 2021, 30, none, 2⟩] : List ResultRow).filter
          (fun r => r.constituency_id == 1 && r.election_year == 2021)
        = l1 ++ rec0 :: l2
      ∧ mkEntry ⟨1, "b", 2021, 20, none, 2⟩ = mkEntry rec0
      ∧ (∀ x ∈ l1, x.rep_order < rec0.rep_order)
      ∧ (∀ x ∈ ([⟨1, "a", 2021, 10, none, 1⟩, ⟨1, "b", 2021, 20, none, 2⟩,
            ⟨1, "c", 2021, 30, none, 2⟩] : List ResultRow).filter
            (fun r => r.constituency_id == 1 && r.election_year == 2021),
          x.rep_order ≤ rec0.rep_order) :=
  spec_c10_retention
    [⟨1, "a", 2021, 10, none, 1⟩, ⟨1, "b", 2021, 20, none, 2⟩,
      ⟨1, "c", 2021, 30, none, 2⟩] 1 2021
    (mkEntry ⟨1, "b", 2021, 20, none, 2⟩) rfl

lemma list_sum_const {xs : List Rat} {c : Rat} (hc : ∀ x ∈ xs, x = c) :
    xs.sum = xs.length * c := by
  induction xs with
  | nil => simp
  | cons a t ih =>
    rw [List.sum_cons, ih (fun x hx => hc x (List.mem_cons_of_mem a hx)),
      hc a (List.mem_cons_self a t), List.length_cons]
    push_cast
    ring

lemma qSumSqDev_of_const {xs : List Rat} {c : Rat} (hne : xs ≠ [])
    (hc : ∀ x ∈ xs, x = c) : qSumSqDev xs = 0 := by
  have hlen : (xs.length : Rat) ≠ 0 := by
    simpa using fun h => hne (List.length_eq_zero.mp h)
  have hmean : qmean xs = c := by
    rw [qmean, list_sum_const hc, mul_comm, mul_div_assoc, div_self hlen, mul_one]
  rw [qSumSqDev]
  apply List.sum_eq_zero
  intro y hy
  obtain ⟨x, hx, hxy⟩ := List.mem_map.mp hy
  rw [← hxy, hmean, hc x hx]
  ring

/-- C1 (amended): in the full-sweep engine a constant attribute column is
always skipped — no CorrelationResult, no error — regardless of sample size;
the focused engines have no such check (see the counterexample). -/
theorem spec_c1_constant (sp : List (Rat × Rat) → Rat × Rat)
    (info : String → AttrInfo) (ch : String) (col : List (Option Rat × Option Rat))
    (hconst : ∀ x ∈ (validPairs col).map Prod.fst,
      ∀ y ∈ (validPairs col).map Prod.fst, x = y) :
    processColumnAll sp info ch col = none := by
  by_cases h30 : (validPairs col).length < 30
  · simp [processColumnAll, h30]
  · have hne : (validPairs col).map Prod.fst ≠ [] := by
      intro hemp
      apply h30
      have := congrArg List.length hemp
      simp only [List.length_map, List.length_nil] at this
      omega
    obtain ⟨c, hcmem⟩ := List.exists_mem_of_ne_nil _ hne
    have hzero : qSumSqDev ((validPairs col).map Prod.fst) = 0 :=
      qSumSqDev_of_const hne (fun x hx => hconst x hx c hcmem)
    simp [processColumnAll, h30, hzero]

/-- C1 witness: a constant attribute over 35 valid rows is skipped. -/
theorem spec_c1_witness :
    processColumnAll (fun _ => (0, 0)) (fun _ => ⟨"", "", "", ""⟩) "2255"
      (List.replicate 35 (some 3, some 7)) = none :=
  spec_c1_constant (fun _ => (0, 0)) (fun _ => ⟨"", "", "", ""⟩) "2255"
    (List.replicate 35 (some 3, some 7)) (by decide)

/-- C1 counterexample: a constant attribute column with 10 valid rows is NOT
excluded by the focused engine — it has no variance check and emits a result
— so the exclusion does not hold in every pipeline variant. -/
theorem spec_c1_cex :
    (∀ x ∈ (validPairs (List.replicate 10
        ((some 3 : Option Rat), (some 7 : Option Rat)))).map Prod.fst, x = 7)
    ∧ processColumnFocused (fun _ => (0, 0)) (fun _ => (0, 0)) "2255" "label"
        (List.replicate 10 (some 3, some 7)) ≠ none := by
  constructor
  · decide
  · intro h
    rw [show processColumnFocused (fun _ => (0, 0)) (fun _ => (0, 0)) "2255" "label"
          (List.replicate 10 (some 3, some 7))
        = some { characteristics_id := "2255", category := "label", n := 10
                 pearson_r := roundTo 4 0, pearson_p := roundTo 6 0
                 spearman_rho := roundTo 4 0, spearman_p := roundTo 6 0
                 significant := decide ((0 : Rat) < 1 / 20) } from rfl] at h
    exact Option.noConfusion h

/-- C3: the strength label of the full-sweep classifier is "Strong" exactly on
`1/2 ≤ |r|`, "Moderate" exactly on `3/10 ≤ |r| < 1/2`, "Weak" exactly on
`1/5 ≤ |r| < 3/10`, "Very Weak" exactly on `|r| < 1/5` (boundaries go to the
higher label); the direction label is "Positive" exactly on `r > 0` and
"Negative" otherwise, so `r = 0` is labelled "Negative"; and every emitted
CorrelationResult carries exactly these labels of its computed coefficient. -/
theorem spec_c3_classification (r : Rat) (sp : List (Rat × Rat) → Rat × Rat)
    (info : String → AttrInfo) (ch : String)
    (col : List (Option Rat × Option Rat)) :
    (strengthLabel |r| = "Strong" ↔ 1 / 2 ≤ |r|)
    ∧ (strengthLabel |r| = "Moderate" ↔ 3 / 10 ≤ |r| ∧ |r| < 1 / 2)
    ∧ (strengthLabel |r| = "Weak" ↔ 1 / 5 ≤ |r| ∧ |r| < 3 / 10)
    ∧ (strengthLabel |r| = "Very Weak" ↔ |r| < 1 / 5)
    ∧ (directionLabel r = "Positive" ↔ 0 < r)
    ∧ (directionLabel r = "Negative" ↔ r ≤ 0)
    ∧ directionLabel 0 = "Negative"
    ∧ (match processColumnAll sp info ch col with
       | none => True
       | some res =>
           res.strength = strengthLabel |(sp (validPairs col)).1|
             ∧ res.direction = directionLabel (sp (validPairs col)).1) := by
  refine ⟨?_, ?_, ?_, ?_, ?_, ?_, ?_, ?_⟩
  · unfold strengthLabel
    split_ifs with h1 h2 h3 <;> simp_all <;> linarith
  · unfold strengthLabel
    split_ifs with h1 h2 h3 <;> simp_all <;> intro h <;> linarith
  · unfold strengthLabel
    split_ifs with h1 h2 h3 <;> simp_all <;> first
      | (constructor <;> linarith)
      | (intro h <;> linarith)
  · unfold strengthLabel
    split_ifs with h1 h2 h3 <;> simp_all <;> linarith
  · unfold directionLabel
    split_ifs with h1 <;> simp_all
  · unfold directionLabel
    split_ifs with h1 <;> simp_all <;> linarith
  · unfold directionLabel
    simp
  · rcases hres : processColumnAll sp info ch col with _ | res
    · simp
    · simp only []
      unfold processColumnAll at hres
      split_ifs at hres with h1 h2 h3 <;>
        first
          | exact Option.noConfusion hres
          | (cases hres; exact ⟨rfl, rfl⟩)

lemma roundTo_two_eq_zero {q : Rat} (hq : 0 ≤ q) : roundTo 2 q = 0 ↔ q < 1 / 200 := by
  unfold roundTo
  constructor
  · intro h
    have h100 : ((10 : Rat) ^ 2) ≠ 0 := by norm_num
    have h0 : (⌊q * 10 ^ 2 + 1 / 2⌋ : Int) = 0 := by
      have hd := div_eq_zero_iff.mp h
      rcases hd with h' | h'
      · exact_mod_cast h'
      · exact absurd h' h100
    have hup : q * 10 ^ 2 + 1 / 2 < (0 : Int) + 1 := (Int.floor_eq_iff.mp h0).2
    push_cast at hup
    nlinarith
  · intro h
    have h0 : (⌊q * 10 ^ 2 + 1 / 2⌋ : Int) = 0 := by
      rw [Int.floor_eq_iff]
      constructor
      · push_cast
        nlinarith
      · push_cast
        nlinarith
    rw [h0]
    norm_num

lemma extractCpcPct_nonneg {prs : Option (List PartyResult)}
    (h : (prs.getD []).all (fun p => decide (0 ≤ p.percentage)) = true) :
    0 ≤ extractCpcPct prs := by
  cases prs with
  | none => simp [extractCpcPct]
  | some l =>
    cases hf : l.find? (fun p => p.partyCode == "CPC") with
    | none => simp [extractCpcPct, hf]
    | some p =>
      have hp : p ∈ l := List.mem_of_find?_eq_some hf
      have hall : ∀ x ∈ l, 0 ≤ x.percentage := by simpa using h
      simp only [extractCpcPct, hf]
      exact mul_nonneg (hall p hp) (by norm_num)

lemma year_blank_iff (r : Option ResultRow) (h : nonnegShares r = true) :
    pctY (r.map mkEntry) = 0 ↔
      (r = none ∨ extractCpcPct (r.bind (fun rr => rr.party_results)) < 1 / 200) := by
  cases r with
  | none => simp [pctY]
  | some rr =>
    have hnn : 0 ≤ extractCpcPct rr.party_results :=
      extractCpcPct_nonneg (by simpa [nonnegShares] using h)
    have hpct : pctY ((some rr).map mkEntry) = roundTo 2 (extractCpcPct rr.party_results) :=
      rfl
    rw [hpct, roundTo_two_eq_zero hnn]
    simp

/-- C9 (amended): the derived 2021-to-2025 change is blank exactly when, for
either year, the retained record is missing or its extracted CPC percentage
rounds to 0.00 at two decimals — under nonnegative shares, exactly when the
percentage is below 1/200 of a point: record missing, CPC entry absent or
share zero (both give percentage 0), or a genuinely tiny nonzero share; such
rows are then dropped by the non-null filter of the loader. -/
theorem spec_c9_blank (r21 r25 : Option ResultRow)
    (h21 : nonnegShares r21 = true) (h25 : nonnegShares r25 = true) :
    (changeCell (r21.map mkEntry) (r25.map mkEntry) = none ↔
      ((r21 = none ∨ extractCpcPct (r21.bind (fun rr => rr.party_results)) < 1 / 200)
        ∨ (r25 = none ∨ extractCpcPct (r25.bind (fun rr => rr.party_results)) < 1 / 200)))
    ∧ (∀ (l : List VoteRow) (v : VoteRow), v.cpc_change_21_25 = none →
        v ∉ load_cpc_votes l) := by
  constructor
  · have hiff : changeCell (r21.map mkEntry) (r25.map mkEntry) = none ↔
        (pctY (r21.map mkEntry) = 0 ∨ pctY (r25.map mkEntry) = 0) := by
      unfold changeCell
      split_ifs with hc
      · constructor
        · intro hno
          simp at hno
        · intro hor
          rcases hor with h0 | h0
          · exact absurd h0 hc.1
          · exact absurd h0 hc.2
      · constructor
        · intro _
          by_contra hno
          push_neg at hno
          exact hc ⟨hno.1, hno.2⟩
        · intro _
          rfl
    exact hiff.trans (or_congr (year_blank_iff r21 h21) (year_blank_iff r25 h25))
  · intro l v hv hmem
    rw [load_cpc_votes, List.mem_filter] at hmem
    rw [hv] at hmem
    exact Bool.noConfusion hmem.2

/-- C9 witness: the blank-change characterization applied at concrete
records with nonnegative shares. -/
theorem spec_c9_witness :
    (⟨1, "x", "p", none, none⟩ : VoteRow) ∉ load_cpc_votes [⟨1, "x", "p", none, none⟩] :=
  (spec_c9_blank (some ⟨101, "r", 2021, 1000, some [⟨"CPC", 4, 1 / 4⟩], 2⟩)
      (some ⟨101, "r", 2025, 1000, some [⟨"CPC", 400, 1 / 2⟩], 1⟩)
      (by simp [nonnegShares]) (by simp [nonnegShares])).2
    [⟨1, "x", "p", none, none⟩] ⟨1, "x", "p", none, none⟩ rfl

/-- C9 counterexample: a retained 2021 record whose CPC share is present and
nonzero (0.002 percent) still yields a blank change because the stored
percentage rounds to 0.00, so the claimed enumeration (record missing, party
absent, or share exactly 0) does not cover all blank cases. -/
theorem spec_c9_cex :
    changeCell
        (some (mkEntry ⟨101, "r", 2021, 1000, some [⟨"CPC", 4, 1 / 50000⟩], 2⟩))
        (some (mkEntry ⟨101, "r", 2025, 1000, some [⟨"CPC", 400, 2 / 5⟩], 1⟩)) = none
    ∧ extractCpcPct (some [⟨"CPC", 4, 1 / 50000⟩]) ≠ 0
    ∧ (some [(⟨"CPC", 4, 1 / 50000⟩ : PartyResult)] : Option (List PartyResult)) ≠ none := by
  refine ⟨?_, ?_, by simp⟩
  · have hp1 : pctY (some (mkEntry
        ⟨101, "r", 2021, 1000, some [⟨"CPC", 4, 1 / 50000⟩], 2⟩)) = 0 := by
      have hex : extractCpcPct (some [(⟨"CPC", 4, 1 / 50000⟩ : PartyResult)])
          = (1 / 50000 : Rat) * 100 := rfl
      have hpct : pctY (some (mkEntry
          ⟨101, "r", 2021, 1000, some [⟨"CPC", 4, 1 / 50000⟩], 2⟩))
          = roundTo 2 ((1 / 50000 : Rat) * 100) := by
        rw [show pctY (some (mkEntry
            ⟨101, "r", 2021, 1000, some [⟨"CPC", 4, 1 / 50000⟩], 2⟩))
            = roundTo 2 (extractCpcPct (some [(⟨"CPC", 4, 1 / 50000⟩ : PartyResult)]))
          from rfl, hex]
      rw [hpct, roundTo]
      norm_num
    unfold changeCell
    rw [if_neg]
    exact fun hcon => hcon.1 hp1
  · have hex : extractCpcPct (some [(⟨"CPC", 4, 1 / 50000⟩ : PartyResult)])
        = (1 / 50000 : Rat) * 100 := rfl
    rw [hex]
    norm_num

lemma processColumnAll_some {sp : List (Rat × Rat) → Rat × Rat}
    {info : String → AttrInfo} {ch : String} {col : List (Option Rat × Option Rat)}
    {res : CorrelationResult} (h : processColumnAll sp info ch col = some res) :
    (res.significant = "Yes" ↔ res.p_value < 1 / 20)
    ∧ (res.direction = "Positive" ∨ res.direction = "Negative") := by
  unfold processColumnAll at h
  split_ifs at h with h1 h2 h3
  all_goals first
    | exact Option.noConfusion h
    | (cases h
       refine ⟨⟨fun _ => h3, fun _ => rfl⟩, ?_⟩
       unfold directionLabel
       split_ifs <;> simp)
    | (cases h
       refine ⟨⟨fun hy => absurd hy (by simp), fun hp => absurd hp h3⟩, ?_⟩
       unfold directionLabel
       split_ifs <;> simp)

lemma mem_calc_all {sp : List (Rat × Rat) → Rat × Rat} {info : String → AttrInfo}
    {t : MergedTable} {res : CorrelationResult} :
    res ∈ calculate_all_correlations sp info t ↔
      res ∈ t.attrs.filterMap
        (fun a => processColumnAll sp info a.1 (t.target.zip a.2)) := by
  unfold calculate_all_correlations
  exact (List.perm_insertionSort byAbsRDesc _).mem_iff

lemma calc_all_fields {sp : List (Rat × Rat) → Rat × Rat} {info : String → AttrInfo}
    {t : MergedTable} {res : CorrelationResult}
    (h : res ∈ calculate_all_correlations sp info t) :
    (res.significant = "Yes" ↔ res.p_value < 1 / 20)
    ∧ (res.direction = "Positive" ∨ res.direction = "Negative") := by
  rw [mem_calc_all] at h
  obtain ⟨a, _, ha⟩ := List.mem_filterMap.mp h
  exact processColumnAll_some ha

lemma filter_pos_neg_perm {R : List CorrelationResult}
    (hdir : ∀ res ∈ R, res.direction = "Positive" ∨ res.direction = "Negative") :
    (R.filter (fun r => r.significant == "Yes" && r.direction == "Positive")
      ++ R.filter (fun r => r.significant == "Yes" && r.direction == "Negative")).Perm
      (R.filter (fun r => r.significant == "Yes")) := by
  induction R with
  | nil => simp
  | cons a t ih =>
    have iht := ih (fun res hr => hdir res (List.mem_cons_of_mem a hr))
    by_cases hs : a.significant = "Yes"
    · rcases hdir a (List.mem_cons_self a t) with hp | hn
      · have c1 : (a.significant == "Yes" && a.direction == "Positive") = true := by
          simp [hs, hp]
        have c2 : (a.significant == "Yes" && a.direction == "Negative") = false := by
          simp [hs, hp]
        have c3 : (a.significant == "Yes") = true := by simp [hs]
        rw [List.filter_cons, List.filter_cons, List.filter_cons, c1, c2, c3]
        simp only [if_true, if_false, List.cons_append]
        exact iht.cons a
      · have c1 : (a.significant == "Yes" && a.direction == "Positive") = false := by
          simp [hs, hn]
        have c2 : (a.significant == "Yes" && a.direction == "Negative") = true := by
          simp [hs, hn]
        have c3 : (a.significant == "Yes") = true := by simp [hs]
        rw [List.filter_cons, List.filter_cons, List.filter_cons, c1, c2, c3]
        simp only [if_true, if_false]
        exact List.perm_middle.trans (iht.cons a)
    · have c1 : (a.significant == "Yes" && a.direction == "Positive") = false := by
        simp [hs]
      have c2 : (a.significant == "Yes" && a.direction == "Negative") = false := by
        simp [hs]
      have c3 : (a.significant == "Yes") = false := by simp [hs]
      rw [List.filter_cons, List.filter_cons, List.filter_cons, c1, c2, c3]
      simpa only [if_false] using iht

/-- C5: in the full-sweep report the primary view is sorted by descending
absolute coefficient; the significant sheet contains exactly the computed
results with p below 0.05 (also sorted by descending absolute coefficient);
the positive sheet (sorted by r descending) and the negative sheet (sorted by
r ascending) partition the significant sheet exactly — a permutation with no
overlap and no omission. -/
theorem spec_c5_report (sp : List (Rat × Rat) → Rat × Rat)
    (info : String → AttrInfo) (t : MergedTable) :
    (calculate_all_correlations sp info t).Sorted byAbsRDesc
    ∧ (∀ res, res ∈ sigSheet (calculate_all_correlations sp info t) ↔
        (res ∈ calculate_all_correlations sp info t ∧ res.p_value < 1 / 20))
    ∧ (posSheet (calculate_all_correlations sp info t)
        ++ negSheet (calculate_all_correlations sp info t)).Perm
        (sigSheet (calculate_all_correlations sp info t))
    ∧ List.Disjoint (posSheet (calculate_all_correlations sp info t))
        (negSheet (calculate_all_correlations sp info t))
    ∧ (sigSheet (calculate_all_correlations sp info t)).Sorted byAbsRDesc
    ∧ (posSheet (calculate_all_correlations sp info t)).Sorted byRDesc
    ∧ (negSheet (calculate_all_correlations sp info t)).Sorted byRAsc := by
  refine ⟨?_, ?_, ?_, ?_, ?_, ?_, ?_⟩
  · unfold calculate_all_correlations
    exact List.sorted_insertionSort byAbsRDesc _
  · intro res
    unfold sigSheet
    rw [(List.perm_insertionSort byAbsRDesc _).mem_iff, List.mem_filter]
    constructor
    · rintro ⟨hmem, hsig⟩
      refine ⟨hmem, ?_⟩
      exact (calc_all_fields hmem).1.mp (by simpa using hsig)
    · rintro ⟨hmem, hp⟩
      refine ⟨hmem, ?_⟩
      simpa using (calc_all_fields hmem).1.mpr hp
  · have hdir : ∀ res ∈ calculate_all_correlations sp info t,
        res.direction = "Positive" ∨ res.direction = "Negative" :=
      fun res h => (calc_all_fields h).2
    unfold posSheet negSheet sigSheet
    exact ((List.Perm.append (List.perm_insertionSort byRDesc _)
        (List.perm_insertionSort byRAsc _)).trans
      (filter_pos_neg_perm hdir)).trans
        (List.perm_insertionSort byAbsRDesc _).symm
  · intro res h1 h2
    unfold posSheet at h1
    unfold negSheet at h2
    rw [(List.perm_insertionSort byRDesc _).mem_iff, List.mem_filter] at h1
    rw [(List.perm_insertionSort byRAsc _).mem_iff, List.mem_filter] at h2
    have hp : res.direction = "Positive" := by
      have := h1.2
      simp only [Bool.and_eq_true, beq_iff_eq] at this
      exact this.2
    have hn : res.direction = "Negative" := by
      have := h2.2
      simp only [Bool.and_eq_true, beq_iff_eq] at this
      exact this.2
    rw [hp] at hn
    exact absurd hn (by decide)
  · unfold sigSheet
    exact List.sorted_insertionSort byAbsRDesc _
  · unfold posSheet
    exact List.sorted_insertionSort byRDesc _
  · unfold negSheet
    exact List.sorted_insertionSort byRAsc _

lemma list_sum_getD (l : List ℝ) :
    l.sum = ∑ i ∈ Finset.range l.length, l.getD i 0 := by
  induction l with
  | nil => simp
  | cons a t ih =>
    rw [List.sum_cons, List.length_cons, Finset.sum_range_succ', ih]
    simp [List.getD, add_comm]

lemma sum_map_getD {α : Type} (v : List α) (g : α → ℝ) (d : α) :
    (v.map g).sum = ∑ i ∈ Finset.range v.length, g (v.getD i d) := by
  rw [list_sum_getD, List.length_map]
  refine Finset.sum_congr rfl (fun i hi => ?_)
  have hilt : i < v.length := Finset.mem_range.mp hi
  rw [List.getD_eq_getElem _ _ (by simpa using hilt), List.getElem_map,
    List.getD_eq_getElem _ _ hilt]

lemma centered_prod_sum (v : List (ℝ × ℝ)) (mx my : ℝ) :
    (v.map (fun p => (p.1 - mx) * (p.2 - my))).sum
      = sumProd v - mx * sumSnd v - my * sumFst v + v.length * (mx * my) := by
  induction v with
  | nil => simp [sumProd, sumFst, sumSnd]
  | cons a t ih =>
    simp only [List.map_cons, List.sum_cons, ih, sumProd, sumFst, sumSnd,
      List.length_cons]
    push_cast
    ring

lemma centered_sq_fst (v : List (ℝ × ℝ)) (m : ℝ) :
    (v.map (fun p => (p.1 - m) ^ 2)).sum
      = sumFstSq v - 2 * m * sumFst v + v.length * m ^ 2 := by
  induction v with
  | nil => simp [sumFstSq, sumFst]
  | cons a t ih =>
    simp only [List.map_cons, List.sum_cons, ih, sumFstSq, sumFst, List.length_cons]
    push_cast
    ring

lemma centered_sq_snd (v : List (ℝ × ℝ)) (m : ℝ) :
    (v.map (fun p => (p.2 - m) ^ 2)).sum
      = sumSndSq v - 2 * m * sumSnd v + v.length * m ^ 2 := by
  induction v with
  | nil => simp [sumSndSq, sumSnd]
  | cons a t ih =>
    simp only [List.map_cons, List.sum_cons, ih, sumSndSq, sumSnd, List.length_cons]
    push_cast
    ring

lemma ssXX_nonneg (v : List (ℝ × ℝ)) : 0 ≤ ssXX v := by
  apply List.sum_nonneg
  intro y hy
  obtain ⟨p, _, rfl⟩ := List.mem_map.mp hy
  exact sq_nonneg _

lemma ssYY_nonneg (v : List (ℝ × ℝ)) : 0 ≤ ssYY v := by
  apply List.sum_nonneg
  intro y hy
  obtain ⟨p, _, rfl⟩ := List.mem_map.mp hy
  exact sq_nonneg _

lemma ssXY_sq_le (v : List (ℝ × ℝ)) : ssXY v ^ 2 ≤ ssXX v * ssYY v := by
  rw [ssXY, ssXX, ssYY, sum_map_getD _ _ ((0 : ℝ), (0 : ℝ)),
    sum_map_getD _ _ ((0 : ℝ), (0 : ℝ)), sum_map_getD _ _ ((0 : ℝ), (0 : ℝ))]
  exact Finset.sum_mul_sq_le_sq_mul_sq (Finset.range v.length)
    (fun i => (v.getD i ((0 : ℝ), (0 : ℝ))).1 - meanFst v)
    (fun i => (v.getD i ((0 : ℝ), (0 : ℝ))).2 - meanSnd v)

lemma pearsonR_abs_le_one (v : List (ℝ × ℝ)) : |pearsonR v| ≤ 1 := by
  unfold pearsonR
  by_cases hz : Real.sqrt (ssXX v) * Real.sqrt (ssYY v) = 0
  · rw [hz, div_zero]
    norm_num
  · have hpos : 0 < Real.sqrt (ssXX v) * Real.sqrt (ssYY v) :=
      lt_of_le_of_ne (mul_nonneg (Real.sqrt_nonneg _) (Real.sqrt_nonneg _)) (Ne.symm hz)
    rw [abs_div, abs_of_pos hpos, div_le_one hpos]
    calc |ssXY v| = Real.sqrt (ssXY v ^ 2) := (Real.sqrt_sq_eq_abs _).symm
      _ ≤ Real.sqrt (ssXX v * ssYY v) := Real.sqrt_le_sqrt (ssXY_sq_le v)
      _ = Real.sqrt (ssXX v) * Real.sqrt (ssYY v) := Real.sqrt_mul (ssXX_nonneg v) _

lemma pearsonR_eq_specForm (v : List (ℝ × ℝ)) (hn : v.length ≠ 0) :
    pearsonR v = pearsonSpecForm v := by
  have hn' : ((v.length : ℝ)) ≠ 0 := Nat.cast_ne_zero.mpr hn
  have hnpos : (0 : ℝ) < v.length := by
    have := Nat.pos_of_ne_zero hn
    exact_mod_cast this
  have hxy : ssXY v = (v.length * sumProd v - sumFst v * sumSnd v) / v.length := by
    rw [ssXY, centered_prod_sum v (meanFst v) (meanSnd v), meanFst, meanSnd]
    field_simp
    ring
  have hxx : ssXX v = (v.length * sumFstSq v - sumFst v ^ 2) / v.length := by
    rw [ssXX, centered_sq_fst v (meanFst v), meanFst]
    field_simp
    ring
  have hyy : ssYY v = (v.length * sumSndSq v - sumSnd v ^ 2) / v.length := by
    rw [ssYY, centered_sq_snd v (meanSnd v), meanSnd]
    field_simp
    ring
  have hA : 0 ≤ v.length * sumFstSq v - sumFst v ^ 2 := by
    have h0 := ssXX_nonneg v
    rw [hxx] at h0
    have := mul_nonneg h0 (le_of_lt hnpos)
    rwa [div_mul_cancel₀ _ hn'] at this
  have hB : 0 ≤ v.length * sumSndSq v - sumSnd v ^ 2 := by
    have h0 := ssYY_nonneg v
    rw [hyy] at h0
    have := mul_nonneg h0 (le_of_lt hnpos)
    rwa [div_mul_cancel₀ _ hn'] at this
  rw [pearsonR, pearsonSpecForm, hxy, hxx, hyy,
    Real.sqrt_div hA, Real.sqrt_div hB]
  set sA := Real.sqrt (v.length * sumFstSq v - sumFst v ^ 2) with hsA
  set sB := Real.sqrt (v.length * sumSndSq v - sumSnd v ^ 2) with hsB
  have hsqn : Real.sqrt (v.length : ℝ) * Real.sqrt (v.length : ℝ) = (v.length : ℝ) :=
    Real.mul_self_sqrt (le_of_lt hnpos)
  have hdenom : sA / Real.sqrt (v.length : ℝ) * (sB / Real.sqrt (v.length : ℝ))
      = sA * sB / v.length := by
    rw [div_mul_div_comm, hsqn]
  rw [hdenom]
  by_cases hD : sA * sB = 0
  · rw [hD]
    simp
  · have hsqn' : Real.sqrt (v.length : ℝ) ≠ 0 := by
      intro h0
      rw [h0, mul_zero] at hsqn
      exact hn' hsqn.symm
    field_simp

lemma list_sum_sq_zero {xs : List Rat} {m : Rat}
    (h : (xs.map (fun x => (x - m) ^ 2)).sum = 0) : ∀ x ∈ xs, x = m := by
  induction xs with
  | nil => simp
  | cons a t ih =>
    rw [List.map_cons, List.sum_cons] at h
    have hnn_a : 0 ≤ (a - m) ^ 2 := sq_nonneg _
    have hnn_t : 0 ≤ (t.map (fun x => (x - m) ^ 2)).sum := by
      apply List.sum_nonneg
      intro y hy
      obtain ⟨x, _, rfl⟩ := List.mem_map.mp hy
      exact sq_nonneg _
    have ha : (a - m) ^ 2 = 0 := by nlinarith
    have ht : (t.map (fun x => (x - m) ^ 2)).sum = 0 := by nlinarith
    intro x hx
    rcases List.mem_cons.mp hx with rfl | hxt
    · exact sub_eq_zero.mp (pow_eq_zero_iff two_ne_zero |>.mp ha)
    · exact ih ht x hxt

lemma qSumSqDev_ne_zero_of_ne {xs : List Rat} {a b : Rat}
    (ha : a ∈ xs) (hb : b ∈ xs) (hab : a ≠ b) : qSumSqDev xs ≠ 0 := by
  intro h0
  unfold qSumSqDev at h0
  have hall := list_sum_sq_zero h0
  exact hab ((hall a ha).trans (hall b hb).symm)

/-- C7: on the aligned non-null pairs of a column with at least 30 valid
observations and nonzero attribute variance, the coefficient computed by the
correlation function of the engine (idealized over the reals) equals the
standard product-moment formula of the spec and lies in [-1, 1]. -/
theorem spec_c7_pearson (col : List (Option Rat × Option Rat))
    (h30 : 30 ≤ (validPairs col).length)
    (_hvar : qSumSqDev ((validPairs col).map Prod.fst) ≠ 0) :
    pearsonR (toRealPairs (validPairs col))
        = pearsonSpecForm (toRealPairs (validPairs col))
    ∧ -1 ≤ pearsonR (toRealPairs (validPairs col))
    ∧ pearsonR (toRealPairs (validPairs col)) ≤ 1 := by
  have hlen : (toRealPairs (validPairs col)).length ≠ 0 := by
    rw [toRealPairs, List.length_map]
    omega
  have habs := pearsonR_abs_le_one (toRealPairs (validPairs col))
  exact ⟨pearsonR_eq_specForm _ hlen, (abs_le.mp habs).1, (abs_le.mp habs).2⟩

/-- C7 witness: the Pearson theorem applied to a concrete 30-row column whose
attribute takes the two values 0 and 2. -/
theorem spec_c7_witness :
    pearsonR (toRealPairs (validPairs
        (List.replicate 15 ((some 0 : Option Rat), (some 0 : Option Rat))
          ++ List.replicate 15 ((some 2 : Option Rat), (some 2 : Option Rat)))))
      = pearsonSpecForm (toRealPairs (validPairs
        (List.replicate 15 ((some 0 : Option Rat), (some 0 : Option Rat))
          ++ List.replicate 15 ((some 2 : Option Rat), (some 2 : Option Rat)))))
    ∧ -1 ≤ pearsonR (toRealPairs (validPairs
        (List.replicate 15 ((some 0 : Option Rat), (some 0 : Option Rat))
          ++ List.replicate 15 ((some 2 : Option Rat), (some 2 : Option Rat)))))
    ∧ pearsonR (toRealPairs (validPairs
        (List.replicate 15 ((some 0 : Option Rat), (some 0 : Option Rat))
          ++ List.replicate 15 ((some 2 : Option Rat), (some 2 : Option Rat))))) ≤ 1 :=
  spec_c7_pearson
    (List.replicate 15 ((some 0 : Option Rat), (some 0 : Option Rat))
      ++ List.replicate 15 ((some 2 : Option Rat), (some 2 : Option Rat)))
    (by decide)
    (@qSumSqDev_ne_zero_of_ne _ 0 2 (by decide) (by decide) (by decide))
